import Mathlib

/-!
Verification of the trading-engine core: a shallow embedding of the
order book (internal/orderbook/orderbook.go), the broker
(internal/broker), the strategy/session wiring (main.go) and the
bounded-queue send sites, with theorems checking the specified
properties.  Prices, quantities and times are modelled as rationals;
Go channels are modelled as bounded queues; the concurrent pipeline of
one session is modelled by an explicit interleaving schedule.
-/

namespace Trading

/-- types.OrderBookEntry: one L2 price level. -/
structure OrderBookEntry where
  price : ℚ
  quantity : ℚ
deriving DecidableEq

/-- types.OrderBookSnapshot: a whole-book snapshot, ingested wholesale. -/
structure OrderBookSnapshot where
  symbol : String
  timestamp : ℚ
  bids : List OrderBookEntry
  asks : List OrderBookEntry
deriving DecidableEq

/-- types.Side. -/
inductive Side where
  | buy
  | sell
deriving DecidableEq

/-- orderbook.OrderBook: symbol, last-updated time, bids, asks. -/
structure OrderBook where
  symbol : String
  lastUpdated : ℚ
  bids : List OrderBookEntry
  asks : List OrderBookEntry
deriving DecidableEq

/-- orderbook.New: empty book. -/
def OrderBook.new : OrderBook :=
  { symbol := "", lastUpdated := 0, bids := [], asks := [] }

/-- Bid comparison used by Update: stored order is descending by price. -/
def bidLE (i j : OrderBookEntry) : Prop := j.price ≤ i.price

/-- Ask comparison used by Update: stored order is ascending by price. -/
def askLE (i j : OrderBookEntry) : Prop := i.price ≤ j.price

instance : DecidableRel bidLE := fun i j => inferInstanceAs (Decidable (j.price ≤ i.price))

instance : DecidableRel askLE := fun i j => inferInstanceAs (Decidable (i.price ≤ j.price))

instance : IsTotal OrderBookEntry bidLE := ⟨fun i j => le_total j.price i.price⟩

instance : IsTotal OrderBookEntry askLE := ⟨fun i j => le_total i.price j.price⟩

instance : IsTrans OrderBookEntry bidLE := ⟨fun _ _ _ h h' => le_trans h' h⟩

instance : IsTrans OrderBookEntry askLE := ⟨fun _ _ _ h h' => le_trans h h'⟩

/-- OrderBook.Update: replace the book with the snapshot, sorting bids
descending and asks ascending by price (the Go code copies the slices and
sorts them with sort.Slice; the comparison order on equal prices is
unspecified there, so any comparison sort is a faithful embedding). -/
def OrderBook.update (ob : OrderBook) (snapshot : OrderBookSnapshot) : OrderBook :=
  { ob with
    symbol := snapshot.symbol
    lastUpdated := snapshot.timestamp
    bids := List.insertionSort bidLE snapshot.bids
    asks := List.insertionSort askLE snapshot.asks }

/-- OrderBook.GetCumulativeDepth: for Buy, sum bid quantities at prices at
least priceLevel; for Sell, sum ask quantities at prices at most priceLevel. -/
def OrderBook.getCumulativeDepth (ob : OrderBook) (side : Side) (priceLevel : ℚ) : ℚ :=
  match side with
  | .buy => ob.bids.foldl (fun depth bid => if priceLevel ≤ bid.price then depth + bid.quantity else depth) 0
  | .sell => ob.asks.foldl (fun depth ask => if ask.price ≤ priceLevel then depth + ask.quantity else depth) 0

/-- The accumulating loop inside OrderBook.CanFill: walk the levels, add the
quantity of each level accepted by keep, and return true as soon as the
running total reaches the requested quantity. -/
def canFillWalk (keep : OrderBookEntry → Bool) (quantity : ℚ) : List OrderBookEntry → ℚ → Bool
  | [], _ => false
  | e :: rest, avail =>
    if keep e then
      if quantity ≤ avail + e.quantity then true
      else canFillWalk keep quantity rest (avail + e.quantity)
    else canFillWalk keep quantity rest avail

/-- OrderBook.CanFill: a Buy checks the asks at prices at most the limit, a
Sell checks the bids at prices at least the limit. -/
def OrderBook.canFill (ob : OrderBook) (side : Side) (price quantity : ℚ) : Bool :=
  match side with
  | .buy => canFillWalk (fun ask => decide (ask.price ≤ price)) quantity ob.asks 0
  | .sell => canFillWalk (fun bid => decide (price ≤ bid.price)) quantity ob.bids 0

/-- The loop inside OrderBook.GetFillPrice: walk the levels while quantity
remains, consuming up to each level's quantity and accumulating cost;
returns the final (totalCost, remainingQty). -/
def fillLoop : List OrderBookEntry → ℚ → ℚ → ℚ × ℚ
  | [], remainingQty, totalCost => (totalCost, remainingQty)
  | level :: rest, remainingQty, totalCost =>
    if remainingQty ≤ 0 then (totalCost, remainingQty)
    else
      let fillQty := if remainingQty < level.quantity then remainingQty else level.quantity
      fillLoop rest (remainingQty - fillQty) (totalCost + fillQty * level.price)

/-- OrderBook.GetFillPrice: average fill price of a market order; walks the
asks for a Buy and the bids for a Sell, and signals not-fillable when
quantity remains after exhausting the levels. -/
def OrderBook.getFillPrice (ob : OrderBook) (side : Side) (quantity : ℚ) : ℚ × Bool :=
  let levels := match side with | .buy => ob.asks | .sell => ob.bids
  let res := fillLoop levels quantity 0
  if 0 < res.2 then (0, false) else (res.1 / quantity, true)

/-- types.TradeSignal: a trade intent. -/
structure TradeSignal where
  symbol : String
  side : Side
  price : ℚ
  quantity : ℚ
  timestamp : ℚ
deriving DecidableEq

/-- types.Execution: a completed (simulated) fill. -/
structure Execution where
  symbol : String
  side : Side
  price : ℚ
  quantity : ℚ
  timestamp : ℚ
deriving DecidableEq

/-- Broker.executeOrder, state-passing on the book (the Go method only
reads the book and, as its final comment states, leaves it unchanged):
price 0 means a market order priced by GetFillPrice; otherwise a limit
order executes at its price when CanFill holds and otherwise falls back
to a market fill; with no liquidity either way it returns none. -/
def executeOrderSt (ob : OrderBook) (signal : TradeSignal) (now : ℚ) :
    Option Execution × OrderBook :=
  if signal.price = 0 then
    match ob.getFillPrice signal.side signal.quantity with
    | (execPrice, true) => (some ⟨signal.symbol, signal.side, execPrice, signal.quantity, now⟩, ob)
    | (_, false) => (none, ob)
  else
    if ob.canFill signal.side signal.price signal.quantity then
      (some ⟨signal.symbol, signal.side, signal.price, signal.quantity, now⟩, ob)
    else
      match ob.getFillPrice signal.side signal.quantity with
      | (bestPrice, true) => (some ⟨signal.symbol, signal.side, bestPrice, signal.quantity, now⟩, ob)
      | (_, false) => (none, ob)

/-- The value produced by Broker.executeOrder. -/
def executeOrder (ob : OrderBook) (signal : TradeSignal) (now : ℚ) : Option Execution :=
  (executeOrderSt ob signal now).1

/-- Broker.Start's signal loop: execute each signal in order, threading the
book state through every step and collecting the emitted executions. -/
def brokerRun : OrderBook → List TradeSignal → ℚ → List Execution × OrderBook
  | ob, [], _ => ([], ob)
  | ob, signal :: rest, now =>
    match executeOrderSt ob signal now with
    | (some execution, ob') =>
      let res := brokerRun ob' rest now
      (execution :: res.1, res.2)
    | (none, ob') => brokerRun ob' rest now

/-- The P and L accumulation loop of main.runTradingSession: running
(buyTotal, sellTotal) over the trade log. -/
def pnlTotals (tradeLog : List Execution) : ℚ × ℚ :=
  tradeLog.foldl
    (fun acc trade =>
      match trade.side with
      | .buy => (acc.1 + trade.price * trade.quantity, acc.2)
      | .sell => (acc.1, acc.2 + trade.price * trade.quantity))
    (0, 0)

/-- totalPnL in main.runTradingSession: sellTotal minus buyTotal. -/
def sessionPnL (tradeLog : List Execution) : ℚ :=
  (pnlTotals tradeLog).2 - (pnlTotals tradeLog).1

/-- One session's externally determined inputs, with the concurrent
interleaving of main.runTradingSession resolved explicitly: loaded is the
feed file's content (none = load failure), each emitted signal is paired
with the number of feed snapshots the engine has applied to the book by
the time the broker processes it, and persistOk is the outcome of the
external CSV write. -/
structure SessionRun where
  loaded : Option (List OrderBookSnapshot)
  signals : List (TradeSignal × Nat)
  persistOk : Bool
deriving DecidableEq

/-- Feed.Start: on a load error it publishes nothing and closes the
updates queue; otherwise it publishes the loaded snapshots in order. -/
def publishedSnaps : Option (List OrderBookSnapshot) → List OrderBookSnapshot
  | none => []
  | some l => l

/-- The book state after the engine has applied the first k published
snapshots (Engine.Start folds OrderBook.Update over the updates queue). -/
def bookAt (snaps : List OrderBookSnapshot) (k : Nat) : OrderBook :=
  (snaps.take k).foldl OrderBook.update OrderBook.new

/-- The trade log collected by main.runTradingSession: each signal is
executed by the broker against the book state at its scheduled point. -/
def sessionTradeLog (snaps : List OrderBookSnapshot) (signals : List (TradeSignal × Nat)) :
    List Execution :=
  signals.filterMap (fun p => executeOrder (bookAt snaps p.2) p.1 p.1.timestamp)

/-- main.SessionResults (the fields the claims are about). -/
structure SessionResults where
  tradeLog : List Execution
  totalPnL : ℚ
  totalTrades : Nat
  success : Bool
deriving DecidableEq

/-- main.runTradingSession: collect the trade log, compute PnL and trade
count, and set success from the persistence outcome — the CSV write is
attempted (and err possibly set) only when the trade log is nonempty. -/
def runTradingSession (r : SessionRun) : SessionResults :=
  let log := sessionTradeLog (publishedSnaps r.loaded) r.signals
  { tradeLog := log
    totalPnL := sessionPnL log
    totalTrades := log.length
    success := if log.isEmpty then true else r.persistOk }

/-- main.runConcurrentSessions: fan out one runTradingSession per session
and fan in one result per session. -/
def runConcurrentSessions (rs : List SessionRun) : List SessionResults :=
  rs.map runTradingSession

/-- A bounded Go channel: capacity and buffered items. -/
structure BQueue (α : Type) where
  cap : Nat
  items : List α
deriving DecidableEq

/-- A buffered channel send succeeds immediately exactly when the buffer
is not full. -/
def BQueue.isFull {α : Type} (q : BQueue α) : Bool := decide (q.cap ≤ q.items.length)

/-- Enqueue at the back (FIFO). -/
def BQueue.push {α : Type} (q : BQueue α) (x : α) : BQueue α := ⟨q.cap, q.items ++ [x]⟩

/-- What a send site does to a message. -/
inductive SendOutcome where
  | delivered
  | dropped
  | blocked
deriving DecidableEq

/-- Feed.Start's snapshot publish: a select with a default branch, so a
full updates queue drops the snapshot with a warning. -/
def feedPublishSnapshot (q : BQueue OrderBookSnapshot) (s : OrderBookSnapshot) :
    BQueue OrderBookSnapshot × SendOutcome :=
  if q.isFull then (q, .dropped) else (q.push s, .delivered)

/-- Broker.Start's execution send: a select with a default branch, so a
full executions queue drops the execution with a warning. -/
def brokerSendExecution (q : BQueue Execution) (e : Execution) :
    BQueue Execution × SendOutcome :=
  if q.isFull then (q, .dropped) else (q.push e, .delivered)

/-- Strategy's trade-signal send (entry and every exit watcher): a select
with a default branch, so a full signals queue drops the signal with a
warning. -/
def strategySendSignal (q : BQueue TradeSignal) (s : TradeSignal) :
    BQueue TradeSignal × SendOutcome :=
  if q.isFull then (q, .dropped) else (q.push s, .delivered)

/-- The broadcaster in main.runTradingSession forwarding an execution to
the strategy's inbox: a select with a default branch, so a full queue
drops the execution with a warning. -/
def forwardToStrategy (q : BQueue Execution) (e : Execution) :
    BQueue Execution × SendOutcome :=
  if q.isFull then (q, .dropped) else (q.push e, .delivered)

/-! Specification-side definitions, written from the spec's words, to be
compared with the embedded code. -/

/-- Total quantity across a list of levels. -/
def totalQty (levels : List OrderBookEntry) : ℚ :=
  (levels.map (fun e => e.quantity)).sum

/-- Spec reading of the fill walk: consuming up to each level's quantity
in list order, the cost contributed by a level is its price times
min(levelQty, remaining), with remaining clamped at zero. -/
def specCost : List OrderBookEntry → ℚ → ℚ
  | [], _ => 0
  | e :: rest, r => e.price * min e.quantity (max r 0) + specCost rest (r - e.quantity)

/-- Cumulative quantity of the levels accepted by keep (the spec's
"cumulative depth at-or-better than a price"). -/
def depthSum (keep : OrderBookEntry → Bool) (levels : List OrderBookEntry) : ℚ :=
  ((levels.filter keep).map (fun e => e.quantity)).sum

/-- Total buy notional of a fill log (spec: sum of buy price times quantity). -/
def buyNotional (tradeLog : List Execution) : ℚ :=
  ((tradeLog.filter (fun e => e.side = Side.buy)).map (fun e => e.price * e.quantity)).sum

/-- Total sell notional of a fill log (spec: sum of sell price times quantity). -/
def sellNotional (tradeLog : List Execution) : ℚ :=
  ((tradeLog.filter (fun e => e.side = Side.sell)).map (fun e => e.price * e.quantity)).sum

/-- Spec reading of the market-order path of execute: price the intent by
GetFillPrice and emit a Fill exactly when it reports fillable. -/
def marketFill (ob : OrderBook) (signal : TradeSignal) (now : ℚ) : Option Execution :=
  let res := ob.getFillPrice signal.side signal.quantity
  if res.2 then some ⟨signal.symbol, signal.side, res.1, signal.quantity, now⟩ else none

/-- Spec reading of execute (the claim's algorithm): limitPrice 0 is a
market order; otherwise fill at the limit when CanFill holds, else fall
back to a market fill; a limit order is never rested. -/
def executeSpec (ob : OrderBook) (signal : TradeSignal) (now : ℚ) : Option Execution :=
  if signal.price = 0 then marketFill ob signal now
  else if ob.canFill signal.side signal.price signal.quantity then
    some ⟨signal.symbol, signal.side, signal.price, signal.quantity, now⟩
  else marketFill ob signal now

/-! Helper lemmas shared by several claims. -/

lemma totalQty_nil : totalQty [] = 0 := rfl

lemma totalQty_cons (e : OrderBookEntry) (rest : List OrderBookEntry) :
    totalQty (e :: rest) = e.quantity + totalQty rest := by
  simp [totalQty]

lemma totalQty_nonneg (levels : List OrderBookEntry)
    (h : ∀ e ∈ levels, 0 ≤ e.quantity) : 0 ≤ totalQty levels := by
  induction levels with
  | nil => simp [totalQty]
  | cons e rest ih =>
    rw [totalQty_cons]
    have h1 : 0 ≤ e.quantity := h e (List.mem_cons_self e rest)
    have h2 : 0 ≤ totalQty rest := ih (fun x hx => h x (List.mem_cons_of_mem e hx))
    linarith

lemma depthSum_nil (keep : OrderBookEntry → Bool) : depthSum keep [] = 0 := rfl

lemma depthSum_cons (keep : OrderBookEntry → Bool) (e : OrderBookEntry)
    (rest : List OrderBookEntry) :
    depthSum keep (e :: rest) = (if keep e then e.quantity else 0) + depthSum keep rest := by
  by_cases h : keep e <;> simp [depthSum, List.filter_cons, h]

lemma depthSum_nonneg (keep : OrderBookEntry → Bool) (levels : List OrderBookEntry)
    (h : ∀ e ∈ levels, 0 ≤ e.quantity) : 0 ≤ depthSum keep levels := by
  induction levels with
  | nil => simp [depthSum]
  | cons e rest ih =>
    rw [depthSum_cons]
    have h1 : 0 ≤ e.quantity := h e (List.mem_cons_self e rest)
    have h2 : 0 ≤ depthSum keep rest := ih (fun x hx => h x (List.mem_cons_of_mem e hx))
    by_cases hk : keep e <;> simp [hk] <;> linarith

lemma fillLoop_nonpos (levels : List OrderBookEntry) (rem cost : ℚ) (h : rem ≤ 0) :
    fillLoop levels rem cost = (cost, rem) := by
  cases levels with
  | nil => rfl
  | cons e rest => simp [fillLoop, h]

lemma fillLoop_rem (levels : List OrderBookEntry) :
    ∀ (rem cost : ℚ), (∀ e ∈ levels, 0 ≤ e.quantity) → 0 ≤ rem →
      (fillLoop levels rem cost).2 = max (rem - totalQty levels) 0 := by
  induction levels with
  | nil =>
    intro rem cost _ hrem
    simp [fillLoop, totalQty]
    exact hrem
  | cons e rest ih =>
    intro rem cost hq hrem
    have hqe : 0 ≤ e.quantity := hq e (List.mem_cons_self e rest)
    have hqr : ∀ x ∈ rest, 0 ≤ x.quantity := fun x hx => hq x (List.mem_cons_of_mem e hx)
    have hsq : 0 ≤ totalQty rest := totalQty_nonneg rest hqr
    by_cases h0 : rem ≤ 0
    · have hz : rem = 0 := le_antisymm h0 hrem
      subst hz
      rw [fillLoop_nonpos _ _ _ le_rfl, totalQty_cons]
      have : 0 - (e.quantity + totalQty rest) ≤ 0 := by linarith
      exact (max_eq_right this).symm
    · push_neg at h0
      rw [show fillLoop (e :: rest) rem cost =
            fillLoop rest (rem - if rem < e.quantity then rem else e.quantity)
              (cost + (if rem < e.quantity then rem else e.quantity) * e.price) by
            simp [fillLoop, not_le.2 h0]]
      by_cases hf : rem < e.quantity
      · rw [if_pos hf, sub_self]
        rw [ih _ _ hqr le_rfl, totalQty_cons]
        have h1 : 0 - totalQty rest ≤ 0 := by linarith
        have h2 : rem - (e.quantity + totalQty rest) ≤ 0 := by linarith
        rw [max_eq_right h1, max_eq_right h2]
      · rw [if_neg hf]
        push_neg at hf
        rw [ih _ _ hqr (by linarith), totalQty_cons, sub_sub]

lemma specCost_nonpos (levels : List OrderBookEntry) :
    ∀ r : ℚ, r ≤ 0 → (∀ e ∈ levels, 0 ≤ e.quantity) → specCost levels r = 0 := by
  induction levels with
  | nil => intro r _ _; rfl
  | cons e rest ih =>
    intro r hr hq
    have hqe : 0 ≤ e.quantity := hq e (List.mem_cons_self e rest)
    have hqr : ∀ x ∈ rest, 0 ≤ x.quantity := fun x hx => hq x (List.mem_cons_of_mem e hx)
    rw [specCost, max_eq_right hr, min_eq_right hqe, ih _ (by linarith) hqr]
    ring

lemma fillLoop_cost (levels : List OrderBookEntry) :
    ∀ (rem cost : ℚ), (∀ e ∈ levels, 0 ≤ e.quantity) →
      (fillLoop levels rem cost).1 = cost + specCost levels rem := by
  induction levels with
  | nil => intro rem cost _; simp [fillLoop, specCost]
  | cons e rest ih =>
    intro rem cost hq
    have hqe : 0 ≤ e.quantity := hq e (List.mem_cons_self e rest)
    have hqr : ∀ x ∈ rest, 0 ≤ x.quantity := fun x hx => hq x (List.mem_cons_of_mem e hx)
    by_cases h0 : rem ≤ 0
    · rw [fillLoop_nonpos _ _ _ h0, specCost, max_eq_right h0, min_eq_right hqe,
        specCost_nonpos rest _ (by linarith) hqr]
      ring
    · push_neg at h0
      rw [show fillLoop (e :: rest) rem cost =
            fillLoop rest (rem - if rem < e.quantity then rem else e.quantity)
              (cost + (if rem < e.quantity then rem else e.quantity) * e.price) by
            simp [fillLoop, not_le.2 h0]]
      rw [specCost, max_eq_left (le_of_lt h0)]
      by_cases hf : rem < e.quantity
      · rw [if_pos hf, sub_self, ih _ _ hqr, min_eq_right (le_of_lt hf),
          specCost_nonpos rest _ le_rfl hqr, specCost_nonpos rest _ (by linarith) hqr]
        ring
      · push_neg at hf
        rw [if_neg (not_lt.2 hf), ih _ _ hqr, min_eq_left hf]
        ring

lemma canFillWalk_iff (keep : OrderBookEntry → Bool) (q : ℚ) (levels : List OrderBookEntry) :
    ∀ acc : ℚ, acc < q → (∀ e ∈ levels, 0 ≤ e.quantity) →
      (canFillWalk keep q levels acc = true ↔ q ≤ acc + depthSum keep levels) := by
  induction levels with
  | nil =>
    intro acc hacc _
    simp [canFillWalk, depthSum]
    exact hacc
  | cons e rest ih =>
    intro acc hacc hq
    have hqe : 0 ≤ e.quantity := hq e (List.mem_cons_self e rest)
    have hqr : ∀ x ∈ rest, 0 ≤ x.quantity := fun x hx => hq x (List.mem_cons_of_mem e hx)
    have hds : 0 ≤ depthSum keep rest := depthSum_nonneg keep rest hqr
    by_cases hk : keep e
    · rw [show canFillWalk keep q (e :: rest) acc =
            if q ≤ acc + e.quantity then true
            else canFillWalk keep q rest (acc + e.quantity) by simp [canFillWalk, hk]]
      rw [depthSum_cons, if_pos hk]
      by_cases hge : q ≤ acc + e.quantity
      · rw [if_pos hge]
        constructor
        · intro _; linarith
        · intro _; rfl
      · rw [if_neg hge]
        push_neg at hge
        rw [ih _ hge hqr]
        constructor <;> intro h <;> linarith
    · rw [show canFillWalk keep q (e :: rest) acc = canFillWalk keep q rest acc by
          simp [canFillWalk, hk]]
      rw [depthSum_cons, if_neg hk, ih _ hacc hqr]
      constructor <;> intro h <;> linarith

lemma foldl_depth (P : OrderBookEntry → Prop) [DecidablePred P] (l : List OrderBookEntry) :
    ∀ acc : ℚ,
      l.foldl (fun depth e => if P e then depth + e.quantity else depth) acc =
        acc + depthSum (fun e => decide (P e)) l := by
  induction l with
  | nil => intro acc; simp [depthSum]
  | cons e rest ih =>
    intro acc
    rw [List.foldl_cons, ih, depthSum_cons]
    by_cases h : P e <;> simp [h, add_assoc]

lemma executeOrderSt_book (ob : OrderBook) (signal : TradeSignal) (now : ℚ) :
    (executeOrderSt ob signal now).2 = ob := by
  unfold executeOrderSt
  by_cases hp : signal.price = 0
  · rw [if_pos hp]
    rcases ob.getFillPrice signal.side signal.quantity with ⟨p, ok⟩
    cases ok <;> rfl
  · rw [if_neg hp]
    by_cases hc : ob.canFill signal.side signal.price signal.quantity
    · rw [if_pos hc]
    · rw [if_neg hc]
      rcases ob.getFillPrice signal.side signal.quantity with ⟨p, ok⟩
      cases ok <;> rfl

lemma brokerRun_book (signals : List TradeSignal) :
    ∀ (ob : OrderBook) (now : ℚ), (brokerRun ob signals now).2 = ob := by
  induction signals with
  | nil => intro ob now; rfl
  | cons s rest ih =>
    intro ob now
    have hb := executeOrderSt_book ob s now
    rcases h : executeOrderSt ob s now with ⟨oe, ob'⟩
    rw [h] at hb
    cases oe <;> simp [brokerRun, h, ih, show ob' = ob from hb]

lemma fillPriceCore (levels : List OrderBookEntry) (q : ℚ) (hq : 0 < q)
    (h : ∀ e ∈ levels, 0 ≤ e.quantity) :
    (if 0 < (fillLoop levels q 0).2 then ((0 : ℚ), false)
     else ((fillLoop levels q 0).1 / q, true)) =
      if q ≤ totalQty levels then (specCost levels q / q, true) else (0, false) := by
  have hrem := fillLoop_rem levels q 0 h (le_of_lt hq)
  have hcost := fillLoop_cost levels q 0 h
  by_cases hle : q ≤ totalQty levels
  · have hz : (fillLoop levels q 0).2 = 0 := by
      rw [hrem]; exact max_eq_right (by linarith)
    rw [if_pos hle, hz, if_neg (lt_irrefl 0), hcost, zero_add]
  · push_neg at hle
    have hpos : 0 < (fillLoop levels q 0).2 := by
      rw [hrem]
      exact lt_max_of_lt_left (by linarith)
    rw [if_neg (not_le.2 hle), if_pos hpos]

lemma pnlTotals_foldl (tradeLog : List Execution) :
    ∀ b s : ℚ,
      tradeLog.foldl
        (fun acc trade =>
          match trade.side with
          | .buy => (acc.1 + trade.price * trade.quantity, acc.2)
          | .sell => (acc.1, acc.2 + trade.price * trade.quantity))
        (b, s) =
      (b + buyNotional tradeLog, s + sellNotional tradeLog) := by
  induction tradeLog with
  | nil => intro b s; simp [buyNotional, sellNotional]
  | cons e rest ih =>
    intro b s
    rw [List.foldl_cons]
    cases hside : e.side <;>
      simp [hside, ih, buyNotional, sellNotional, List.filter_cons, add_assoc]

lemma executeOrder_newBook (signal : TradeSignal) (now : ℚ) (h : 0 < signal.quantity) :
    executeOrder OrderBook.new signal now = none := by
  have hf : OrderBook.new.getFillPrice signal.side signal.quantity = (0, false) := by
    cases signal.side <;>
      simp [OrderBook.getFillPrice, OrderBook.new, fillLoop, h]
  have hc : OrderBook.new.canFill signal.side signal.price signal.quantity = false := by
    cases signal.side <;> simp [OrderBook.canFill, OrderBook.new, canFillWalk]
  unfold executeOrder executeOrderSt
  by_cases hp : signal.price = 0 <;> simp [hp, hf, hc]

lemma bookAt_nil (k : Nat) : bookAt [] k = OrderBook.new := by
  simp [bookAt]

lemma failedSession (r : SessionRun) (h : r.loaded = none)
    (hq : ∀ p ∈ r.signals, 0 < p.1.quantity) :
    runTradingSession r = ⟨[], 0, 0, true⟩ := by
  have hlog : sessionTradeLog (publishedSnaps r.loaded) r.signals = [] := by
    rw [h]
    unfold publishedSnaps sessionTradeLog
    rw [List.filterMap_eq_nil_iff]
    intro p hp
    rw [bookAt_nil]
    exact executeOrder_newBook _ _ (hq p hp)
  simp [runTradingSession, hlog, sessionPnL, pnlTotals]

lemma success_of_persistOk (r : SessionRun) (h : r.persistOk = true) :
    (runTradingSession r).success = true := by
  simp only [runTradingSession]
  split <;> simp [h]

/-! The claims. -/

/-- C2: execute follows the stated algorithm — limitPrice 0 yields a Fill
at GetFillPrice(side, qty) exactly when fillable; a nonzero limitPrice
yields a Fill at limitPrice when CanFill holds, otherwise falls back to a
market fill when fillable, otherwise no Fill; a limit order is never
rested. -/
theorem executeOrder_algorithm (ob : OrderBook) (signal : TradeSignal) (now : ℚ) :
    executeOrder ob signal now = executeSpec ob signal now := by
  unfold executeOrder executeOrderSt executeSpec marketFill
  by_cases hp : signal.price = 0
  · rcases h : ob.getFillPrice signal.side signal.quantity with ⟨p, ok⟩
    cases ok <;> simp [hp, h]
  · by_cases hc : ob.canFill signal.side signal.price signal.quantity
    · simp [hp, hc]
    · rcases h : ob.getFillPrice signal.side signal.quantity with ⟨p, ok⟩
      cases ok <;> simp [hp, hc, h]

/-- C7: execute leaves the OrderBook entirely unchanged — a single
executeOrder step returns the book as it received it, and the broker's
whole signal loop ends with the book it started with. -/
theorem execute_no_book_mutation (ob : OrderBook) (signals : List TradeSignal) (now : ℚ) :
    (∀ signal, (executeOrderSt ob signal now).2 = ob) ∧
    (brokerRun ob signals now).2 = ob :=
  ⟨fun signal => executeOrderSt_book ob signal now, brokerRun_book signals ob now⟩

/-- C9: GetFillPrice with quantity 0 never takes the not-fillable branch:
for every book state (the empty book included) it returns ok = true
together with the unguarded quotient 0/0 of the accumulated cost by the
requested quantity. -/
theorem getFillPrice_zero_quantity (ob : OrderBook) (side : Side) :
    ob.getFillPrice side 0 = ((0 : ℚ) / 0, true) := by
  cases side <;>
    simp [OrderBook.getFillPrice, fillLoop_nonpos _ (0 : ℚ) (0 : ℚ) le_rfl]

/-- C10: GetCumulativeDepth(Buy, p) sums the BID quantities at prices at
least p and GetCumulativeDepth(Sell, p) sums the ASK quantities at prices
at most p — the side argument selects the same-named side — whereas
CanFill's side argument selects the opposite side: CanFill Buy reads only
the asks and CanFill Sell only the bids. -/
theorem cumulativeDepth_sides (ob : OrderBook) (p : ℚ) :
    ob.getCumulativeDepth .buy p = depthSum (fun bid => decide (p ≤ bid.price)) ob.bids ∧
    ob.getCumulativeDepth .sell p = depthSum (fun ask => decide (ask.price ≤ p)) ob.asks ∧
    (∀ (sym : String) (t : ℚ) (bids asks : List OrderBookEntry) (price q : ℚ),
      OrderBook.canFill ⟨sym, t, bids, asks⟩ .buy price q =
        OrderBook.canFill ⟨sym, t, [], asks⟩ .buy price q ∧
      OrderBook.canFill ⟨sym, t, bids, asks⟩ .sell price q =
        OrderBook.canFill ⟨sym, t, bids, []⟩ .sell price q ∧
      OrderBook.getCumulativeDepth ⟨sym, t, bids, asks⟩ .buy price =
        OrderBook.getCumulativeDepth ⟨sym, t, bids, []⟩ .buy price ∧
      OrderBook.getCumulativeDepth ⟨sym, t, bids, asks⟩ .sell price =
        OrderBook.getCumulativeDepth ⟨sym, t, [], asks⟩ .sell price) := by
  refine ⟨?_, ?_, fun sym t bids asks price q => ⟨rfl, rfl, rfl, rfl⟩⟩
  · have h := foldl_depth (fun bid => p ≤ bid.price) ob.bids 0
    simpa [OrderBook.getCumulativeDepth] using h
  · have h := foldl_depth (fun ask => ask.price ≤ p) ob.asks 0
    simpa [OrderBook.getCumulativeDepth] using h

/-- C8 (amended): every send site of the pipeline — snapshot intake,
broker executions, strategy trade signals, and the broadcaster's forward
to the strategy inbox — uses a non-blocking send that drops the message
with a warning when the queue is full and delivers it otherwise; none of
them ever blocks. -/
theorem queue_send_policies :
    (∀ (q : BQueue OrderBookSnapshot) (s : OrderBookSnapshot),
        (feedPublishSnapshot q s).2 =
          (if q.isFull then SendOutcome.dropped else SendOutcome.delivered)) ∧
    (∀ (q : BQueue Execution) (e : Execution),
        (brokerSendExecution q e).2 =
          (if q.isFull then SendOutcome.dropped else SendOutcome.delivered) ∧
        (brokerSendExecution q e).2 ≠ SendOutcome.blocked) ∧
    (∀ (q : BQueue TradeSignal) (s : TradeSignal),
        (strategySendSignal q s).2 =
          (if q.isFull then SendOutcome.dropped else SendOutcome.delivered) ∧
        (strategySendSignal q s).2 ≠ SendOutcome.blocked) ∧
    (∀ (q : BQueue Execution) (e : Execution),
        (forwardToStrategy q e).2 =
          (if q.isFull then SendOutcome.dropped else SendOutcome.delivered) ∧
        (forwardToStrategy q e).2 ≠ SendOutcome.blocked) := by
  refine ⟨fun q s => ?_, fun q e => ⟨?_, ?_⟩, fun q s => ⟨?_, ?_⟩, fun q e => ⟨?_, ?_⟩⟩ <;>
    simp only [feedPublishSnapshot, brokerSendExecution, strategySendSignal,
      forwardToStrategy] <;>
    split <;> simp

/-- A full bounded queue (capacity 0). -/
def fullExecQueue : BQueue Execution := ⟨0, []⟩

/-- A full bounded queue (capacity 0). -/
def fullSignalQueue : BQueue TradeSignal := ⟨0, []⟩

/-- A concrete execution message. -/
def cexExecution : Execution := ⟨"BTCUSD", .buy, 1, 1, 0⟩

/-- A concrete trade signal. -/
def cexSignal : TradeSignal := ⟨"BTCUSD", .sell, 0, 1, 0⟩

/-- C8 counterexample: on a full queue, the broker's execution send and
the strategy's trade-signal send DROP the message instead of blocking, so
the drop policy is not confined to the snapshot-intake path. -/
theorem queue_policy_claim_cex :
    (brokerSendExecution fullExecQueue cexExecution).2 = SendOutcome.dropped ∧
    (strategySendSignal fullSignalQueue cexSignal).2 = SendOutcome.dropped ∧
    (brokerSendExecution fullExecQueue cexExecution).2 ≠ SendOutcome.blocked := by
  refine ⟨rfl, rfl, ?_⟩
  intro h
  exact absurd h (by decide)

/-- C1 (amended): for quantities q > 0 on a book whose level quantities
are all non-negative (bids sorted descending, asks sorted ascending, as
Update maintains), GetFillPrice(Buy, q) returns the weighted-average
price specCost(asks, q)/q with ok = true exactly when the total ask
quantity reaches q, and (0, false) otherwise; symmetrically for Sell
against the bids. -/
theorem getFillPrice_spec (ob : OrderBook) (q : ℚ) (hq : 0 < q)
    (ha : ∀ e ∈ ob.asks, 0 ≤ e.quantity) (hb : ∀ e ∈ ob.bids, 0 ≤ e.quantity)
    (_hsa : List.Pairwise askLE ob.asks) (_hsb : List.Pairwise bidLE ob.bids) :
    ob.getFillPrice .buy q =
      (if q ≤ totalQty ob.asks then (specCost ob.asks q / q, true) else (0, false)) ∧
    ob.getFillPrice .sell q =
      (if q ≤ totalQty ob.bids then (specCost ob.bids q / q, true) else (0, false)) := by
  constructor
  · have h := fillPriceCore ob.asks q hq ha
    simpa [OrderBook.getFillPrice] using h
  · have h := fillPriceCore ob.bids q hq hb
    simpa [OrderBook.getFillPrice] using h

/-- The spec's own worked example: asks (101.00, 1.0), (101.50, 2.0),
(102.00, 1.5); bids (100.00, 1.0), (99.50, 2.0), (99.00, 1.5). -/
def exBook : OrderBook :=
  OrderBook.new.update
    ⟨"BTCUSD", 0, [⟨100, 1⟩, ⟨199/2, 2⟩, ⟨99, 3/2⟩], [⟨101, 1⟩, ⟨203/2, 2⟩, ⟨102, 3/2⟩]⟩

/-- C1 witness: on the spec's example book, a market buy of 2.5 fills at
the weighted average 101.30. -/
theorem getFillPrice_spec_witness :
    (0 : ℚ) < 5 / 2 ∧ exBook.getFillPrice .buy (5 / 2) = (1013 / 10, true) := by
  have h := (getFillPrice_spec exBook (5 / 2) (by norm_num)
      (by norm_num [exBook, OrderBook.update, OrderBook.new, List.insertionSort,
        List.orderedInsert, askLE, bidLE])
      (by norm_num [exBook, OrderBook.update, OrderBook.new, List.insertionSort,
        List.orderedInsert, askLE, bidLE])
      (by norm_num [exBook, OrderBook.update, OrderBook.new, List.insertionSort,
        List.orderedInsert, askLE, bidLE, List.pairwise_cons])
      (by norm_num [exBook, OrderBook.update, OrderBook.new, List.insertionSort,
        List.orderedInsert, askLE, bidLE, List.pairwise_cons])).1
  refine ⟨by norm_num, ?_⟩
  rw [h]
  norm_num [exBook, OrderBook.update, OrderBook.new, List.insertionSort,
    List.orderedInsert, askLE, bidLE, totalQty, specCost]

/-- A book, reached through Update, holding an ask level with a negative
quantity (snapshots are ingested unvalidated). -/
def negBook : OrderBook :=
  OrderBook.new.update ⟨"BTCUSD", 0, [], [⟨100, 5⟩, ⟨101, -10⟩]⟩

/-- C1 counterexample: on a book whose total ask quantity is below the
requested quantity, GetFillPrice(Buy, 3) nevertheless reports fillable —
the "(_, false) exactly when total ask quantity < q" part of the claim
fails once a level carries a negative quantity. -/
theorem getFillPrice_claim_cex :
    totalQty negBook.asks < 3 ∧ (negBook.getFillPrice .buy 3).2 = true := by
  constructor <;>
    norm_num [negBook, OrderBook.update, OrderBook.new, List.insertionSort,
      List.orderedInsert, askLE, bidLE, totalQty, OrderBook.getFillPrice, fillLoop]

/-- C4 (amended): after Update the stored bids are descending and the
stored asks ascending by price (non-strictly); when the snapshot's prices
on a side are pairwise distinct, that side is strictly sorted. -/
theorem update_sorted (ob : OrderBook) (s : OrderBookSnapshot) :
    List.Pairwise bidLE (ob.update s).bids ∧
    List.Pairwise askLE (ob.update s).asks ∧
    ((s.bids.map (fun e => e.price)).Nodup →
      List.Pairwise (fun i j => j.price < i.price) (ob.update s).bids) ∧
    ((s.asks.map (fun e => e.price)).Nodup →
      List.Pairwise (fun i j => i.price < j.price) (ob.update s).asks) := by
  refine ⟨List.sorted_insertionSort bidLE s.bids, List.sorted_insertionSort askLE s.asks,
    fun hnd => ?_, fun hnd => ?_⟩
  · have hs : List.Pairwise bidLE (List.insertionSort bidLE s.bids) :=
      List.sorted_insertionSort bidLE s.bids
    have hperm := List.perm_insertionSort bidLE s.bids
    have h2 : List.Pairwise (fun i j : OrderBookEntry => i.price ≠ j.price) s.bids :=
      List.pairwise_map.mp hnd
    have hne : List.Pairwise (fun i j : OrderBookEntry => i.price ≠ j.price)
        (List.insertionSort bidLE s.bids) :=
      (hperm.pairwise_iff (fun h => Ne.symm h)).mpr h2
    exact (hs.and hne).imp (fun h => lt_of_le_of_ne h.1 (Ne.symm h.2))
  · have hs : List.Pairwise askLE (List.insertionSort askLE s.asks) :=
      List.sorted_insertionSort askLE s.asks
    have hperm := List.perm_insertionSort askLE s.asks
    have h2 : List.Pairwise (fun i j : OrderBookEntry => i.price ≠ j.price) s.asks :=
      List.pairwise_map.mp hnd
    have hne : List.Pairwise (fun i j : OrderBookEntry => i.price ≠ j.price)
        (List.insertionSort askLE s.asks) :=
      (hperm.pairwise_iff (fun h => Ne.symm h)).mpr h2
    exact (hs.and hne).imp (fun h => lt_of_le_of_ne h.1 h.2)

/-- A snapshot with a duplicated price on each side. -/
def dupSnapshot : OrderBookSnapshot :=
  ⟨"BTCUSD", 0, [⟨100, 1⟩, ⟨100, 2⟩], [⟨50, 1⟩, ⟨50, 2⟩]⟩

/-- The book after ingesting the duplicate-price snapshot. -/
def dupBook : OrderBook := OrderBook.new.update dupSnapshot

/-- C4 counterexample: with duplicate prices in the snapshot, the stored
bids are NOT strictly descending (Update sorts but never merges or drops
duplicate price levels), refuting the claim for such snapshots. -/
theorem update_strict_sort_cex :
    ¬ (List.Pairwise (fun i j => j.price < i.price) dupBook.bids ∧
       List.Pairwise (fun i j => i.price < j.price) dupBook.asks) := by
  decide

/-- A snapshot with pairwise-distinct prices. -/
def distinctSnapshot : OrderBookSnapshot :=
  ⟨"BTCUSD", 0, [⟨100, 1⟩, ⟨105, 2⟩], [⟨110, 1⟩, ⟨108, 2⟩]⟩

/-- C4 witness: a distinct-price snapshot yields strictly descending bids
after Update. -/
theorem update_sorted_witness :
    (distinctSnapshot.bids.map (fun e => e.price)).Nodup ∧
    List.Pairwise (fun i j => j.price < i.price)
      ((OrderBook.new.update distinctSnapshot).bids) :=
  ⟨by decide, (update_sorted OrderBook.new distinctSnapshot).2.2.1 (by decide)⟩

/-- C6 (amended): for q > 0 on a book whose level quantities are all
non-negative, CanFill(Sell, p, q) is true iff the cumulative bid quantity
at prices at least p reaches q, and CanFill(Buy, p, q) is true iff the
cumulative ask quantity at prices at most p reaches q. -/
theorem canFill_spec (ob : OrderBook) (p q : ℚ) (hq : 0 < q)
    (hb : ∀ e ∈ ob.bids, 0 ≤ e.quantity) (ha : ∀ e ∈ ob.asks, 0 ≤ e.quantity) :
    (ob.canFill .sell p q = true ↔
      q ≤ depthSum (fun bid => decide (p ≤ bid.price)) ob.bids) ∧
    (ob.canFill .buy p q = true ↔
      q ≤ depthSum (fun ask => decide (ask.price ≤ p)) ob.asks) := by
  constructor
  · have h := canFillWalk_iff (fun bid => decide (p ≤ bid.price)) q ob.bids 0 hq hb
    simpa [OrderBook.canFill] using h
  · have h := canFillWalk_iff (fun ask => decide (ask.price ≤ p)) q ob.asks 0 hq ha
    simpa [OrderBook.canFill] using h

/-- C6 counterexample: at quantity 0 on the empty book the cumulative bid
depth at prices at least 100 (namely 0) does reach the requested quantity,
yet CanFill returns false — the claimed equivalence fails for q = 0
because the loop only reports true after accumulating a matching level. -/
theorem canFill_claim_cex :
    OrderBook.new.canFill .sell 100 0 = false ∧
    (0 : ℚ) ≤ depthSum (fun bid => decide ((100 : ℚ) ≤ bid.price)) OrderBook.new.bids :=
  ⟨rfl, le_refl 0⟩

/-- A small book with two bid levels. -/
def wBook6 : OrderBook :=
  OrderBook.new.update ⟨"BTCUSD", 0, [⟨100, 2⟩, ⟨99, 3⟩], [⟨101, 2⟩]⟩

/-- C6 witness: on a concrete book, CanFill(Sell, 100, 2) is equivalent to
the cumulative bid depth at prices at least 100 reaching 2. -/
theorem canFill_spec_witness :
    (0 : ℚ) < 2 ∧
    (wBook6.canFill .sell 100 2 = true ↔
      2 ≤ depthSum (fun bid => decide ((100 : ℚ) ≤ bid.price)) wBook6.bids) :=
  ⟨by norm_num,
    (canFill_spec wBook6 100 2 (by norm_num)
      (by norm_num [wBook6, OrderBook.update, OrderBook.new, List.insertionSort,
        List.orderedInsert, askLE, bidLE])
      (by norm_num [wBook6, OrderBook.update, OrderBook.new, List.insertionSort,
        List.orderedInsert, askLE, bidLE])).1⟩

/-- C5: a trade log of one Buy fill then one Sell fill of the same
quantity materializes totalPnL = (sellPrice - buyPrice) x quantity with
tradeCount 2; in general totalPnL is the sell notional minus the buy
notional of the fill log, and tradeCount is the log's length. -/
theorem session_pnl_spec :
    (∀ (sym : String) (p₁ p₂ qty t₁ t₂ : ℚ),
        sessionPnL [⟨sym, .buy, p₁, qty, t₁⟩, ⟨sym, .sell, p₂, qty, t₂⟩] = (p₂ - p₁) * qty ∧
        ([⟨sym, .buy, p₁, qty, t₁⟩, ⟨sym, .sell, p₂, qty, t₂⟩] : List Execution).length = 2) ∧
    (∀ tradeLog : List Execution,
        sessionPnL tradeLog = sellNotional tradeLog - buyNotional tradeLog) ∧
    (∀ r : SessionRun,
        (runTradingSession r).totalPnL = sessionPnL (runTradingSession r).tradeLog ∧
        (runTradingSession r).totalTrades = (runTradingSession r).tradeLog.length) := by
  refine ⟨fun sym p₁ p₂ qty t₁ t₂ => ⟨?_, rfl⟩, fun tradeLog => ?_, fun r => ⟨rfl, rfl⟩⟩
  · simp [sessionPnL, pnlTotals]
    ring
  · have h := pnlTotals_foldl tradeLog 0 0
    unfold sessionPnL pnlTotals
    rw [h]
    ring

/-- A snapshot that gives the good sessions something to trade against. -/
def cexSnapC3 : OrderBookSnapshot := ⟨"BTCUSD", 0, [⟨100, 2⟩], [⟨101, 2⟩]⟩

/-- A session whose feed loads and whose market buy fills. -/
def cexRunOk : SessionRun := ⟨some [cexSnapC3], [(⟨"BTCUSD", .buy, 0, 1, 1⟩, 1)], true⟩

/-- A session whose feed loads and whose market sell fills. -/
def cexRunOk2 : SessionRun := ⟨some [cexSnapC3], [(⟨"BTCUSD", .sell, 0, 1, 1⟩, 1)], true⟩

/-- A session whose feed file fails to load. -/
def cexRunBad : SessionRun := ⟨none, [(⟨"BTCUSD", .buy, 0, 1, 1⟩, 1)], true⟩

/-- C3 counterexample: three sessions of which exactly one fails to load
its feed (and no persistence error occurs) yield 3 results of which ZERO
are marked success = false — the feed-failed session simply ends with
zero trades and success = true, because success only records the
persistence outcome; the claim's "exactly 1 success=false" fails. -/
theorem coordinator_claim_cex :
    (runConcurrentSessions [cexRunOk, cexRunBad, cexRunOk2]).length = 3 ∧
    (runTradingSession cexRunOk).totalTrades = 1 ∧
    (runTradingSession cexRunBad).totalTrades = 0 ∧
    ((runConcurrentSessions [cexRunOk, cexRunBad, cexRunOk2]).filter
      (fun res => !res.success)).length = 0 := by
  refine ⟨rfl, ?_, ?_, ?_⟩ <;>
    norm_num [runConcurrentSessions, runTradingSession, sessionTradeLog, publishedSnaps,
      bookAt, executeOrder, executeOrderSt, OrderBook.getFillPrice, OrderBook.canFill,
      canFillWalk, fillLoop, OrderBook.update, OrderBook.new, List.insertionSort,
      List.orderedInsert, bidLE, askLE, cexRunOk, cexRunOk2, cexRunBad, cexSnapC3,
      sessionPnL, pnlTotals, List.filterMap_cons, List.filter_cons]

/-- C3 (amended): when the coordinator runs 3 sessions and exactly one of
them fails to load its feed file, it still returns 3 session results and
the failed session terminates with zero trades; but success = false marks
only persistence failures, so with every persistence outcome ok all 3
results carry success = true (0 marked false, not 1). -/
theorem coordinator_feed_failure (r₁ r₂ r₃ : SessionRun)
    (h₂ : r₂.loaded = none)
    (hq : ∀ p ∈ r₂.signals, 0 < p.1.quantity)
    (hp₁ : r₁.persistOk = true) (hp₃ : r₃.persistOk = true) :
    (runConcurrentSessions [r₁, r₂, r₃]).length = 3 ∧
    (runTradingSession r₂).totalTrades = 0 ∧
    (runTradingSession r₂).success = true ∧
    ((runConcurrentSessions [r₁, r₂, r₃]).filter (fun res => !res.success)).length = 0 := by
  have h2 := failedSession r₂ h₂ hq
  have s₁ := success_of_persistOk r₁ hp₁
  have s₃ := success_of_persistOk r₃ hp₃
  have s₂ : (runTradingSession r₂).success = true := by rw [h2]
  refine ⟨rfl, by rw [h2], s₂, ?_⟩
  simp [runConcurrentSessions, List.filter_cons, s₁, s₂, s₃]

/-- A snapshot for the witness coordinator scenario. -/
def wSnapC3 : OrderBookSnapshot := ⟨"ETHUSD", 0, [⟨200, 3⟩], [⟨201, 3⟩]⟩

/-- A witness session whose feed loads. -/
def wRunOk : SessionRun := ⟨some [wSnapC3], [(⟨"ETHUSD", .buy, 0, 1, 1⟩, 1)], true⟩

/-- A witness session whose feed fails to load. -/
def wRunBad : SessionRun := ⟨none, [(⟨"ETHUSD", .buy, 0, 1, 1⟩, 1)], true⟩

/-- C3 witness: the amended statement instantiated at a concrete
3-session scenario with one failed feed. -/
theorem coordinator_feed_failure_witness :
    wRunBad.loaded = none ∧
    ((runConcurrentSessions [wRunOk, wRunBad, wRunOk]).filter
      (fun res => !res.success)).length = 0 :=
  ⟨rfl, (coordinator_feed_failure wRunOk wRunBad wRunOk rfl
    (by norm_num [wRunBad]) rfl rfl).2.2.2⟩

end Trading
